import Mathlib

/-
  Verification of the candidate evaluation and ranking pipeline in
  `src/app.py` (ADMET & Docking Prioritizer).

  The cheminformatics toolkit (RDKit) is external to the repository, so a
  molecule is modelled abstractly by the four descriptor values the pipeline
  reads from it (`Descriptors.MolWt`, `Descriptors.MolLogP`,
  `Descriptors.NumHDonors`, `Descriptors.NumHAcceptors`), and
  `Chem.MolFromSmiles` is an arbitrary oracle `String → Option Mol`
  (`None` models a parse failure).  Floating point is idealised to exact
  rationals.  The 2D depiction `Draw.MolToImage(mol)` is identified with the
  molecule it depicts, so the `images` list holds `Option Mol`.
-/

namespace Admet

/-- Descriptor bundle of a successfully parsed molecule, as read off by
`src/app.py` lines 128-131. -/
structure Mol where
  mw : ℚ
  logp : ℚ
  h_donors : ℕ
  h_acceptors : ℕ
deriving DecidableEq, Repr

/-- The structure-parsing oracle modelling `Chem.MolFromSmiles`. -/
abbrev ChemOracle := String → Option Mol

/-- One input record: the two columns read from each row
(`src/app.py` lines 112-113). -/
structure InputRow where
  SMILES : String
  Docking_Score : ℚ
deriving DecidableEq, Repr

/-- One entry of the `results` list built in the per-row loop
(`src/app.py` lines 117-123 and 147-157).  Fields are named after the
dict keys; descriptor fields are `none` on the invalid branch. -/
structure ResultRow where
  SMILES : String
  Docking_Score : ℚ
  Status : String
  MW : Option ℚ
  LogP : Option ℚ
  HDonors : Option ℕ
  HAcceptors : Option ℕ
  Violations : Option ℕ
  ADMET_Predict : Option String
deriving DecidableEq, Repr

/-- A result row after the ranking step added the `Final_Rank` column;
`none` models the dash placeholder of `src/app.py` line 169. -/
structure RankedRow extends ResultRow where
  Final_Rank : Option ℕ
deriving DecidableEq, Repr

/-- Rounding to two decimals, modelling `round(x, 2)` on exact rationals. -/
def round2 (x : ℚ) : ℚ := (round (x * 100) : ℤ) / 100

/-- Lipinski violation count, `src/app.py` lines 134-139: the sum of the
four Boolean threshold tests. -/
def countViolations (m : Mol) : ℕ :=
  (if m.mw > 500 then 1 else 0) + (if m.logp > 5 then 1 else 0) +
    (if m.h_donors > 5 then 1 else 0) + (if m.h_acceptors > 10 then 1 else 0)

/-- Evaluation of a single record, `src/app.py` lines 112-157: parse the
SMILES, on failure emit the `Invalid SMILES` row with all descriptor
fields unset, otherwise compute descriptors, violations, the mock ADMET
label and the Pass/Fail status. -/
def evalRow (chem : ChemOracle) (r : InputRow) : ResultRow :=
  match chem r.SMILES with
  | none =>
      { SMILES := r.SMILES, Docking_Score := r.Docking_Score,
        Status := "Invalid SMILES",
        MW := none, LogP := none, HDonors := none, HAcceptors := none,
        Violations := none, ADMET_Predict := none }
  | some m =>
      { SMILES := r.SMILES, Docking_Score := r.Docking_Score,
        Status := if countViolations m ≤ 1 then "Pass"
                  else "Fail (Lipinski Violation)",
        MW := some (round2 m.mw), LogP := some (round2 m.logp),
        HDonors := some m.h_donors, HAcceptors := some m.h_acceptors,
        Violations := some (countViolations m),
        ADMET_Predict := some (if m.logp < 5 ∧ m.h_donors ≤ 5
                               then "Good" else "Moderate") }

/-- The `images` list, built in input order (`src/app.py` lines 110, 124,
160): `none` for an unparseable record, otherwise the depiction of the
parsed molecule. -/
def images (chem : ChemOracle) (rows : List InputRow) : List (Option Mol) :=
  rows.map fun r => chem r.SMILES

/-- The comparison used by the ascending sort of the Pass partition on
the `Docking_Score` column (`src/app.py` line 167). -/
def scoreLE (a b : ResultRow) : Bool := decide (a.Docking_Score ≤ b.Docking_Score)

/-- Membership test for the Pass partition (`src/app.py` line 165). -/
def isPass (r : ResultRow) : Bool := r.Status == "Pass"

/-- Assignment of `Final_Rank` values `k, k+1, ...` down a list, modelling
the `Final_Rank` column assignment `range(1, K + 1)` at line 168. -/
def attachRanks : List ResultRow → ℕ → List RankedRow
  | [], _ => []
  | r :: rs, k => ⟨r, some k⟩ :: attachRanks rs (k + 1)

/-- The ranking step applied to the Pass partition: ascending sort by
docking score, then ranks 1..K (`src/app.py` lines 167-168).  The source
sorts with the pandas default sort kind, whose order among tied scores is
implementation-defined; the model fixes one admissible tie order (the
stable one).  No theorem below asserts a property of the tie order. -/
def rankStep (df_pass : List ResultRow) : List RankedRow :=
  attachRanks (df_pass.mergeSort scoreLE) 1

/-- The whole analysis pipeline on the row list (`src/app.py` lines
109-170): evaluate every row, split into Pass and non-Pass partitions,
sort and rank the Pass partition, mark non-Pass ranks unset, concatenate. -/
def analyze (chem : ChemOracle) (rows : List InputRow) : List RankedRow :=
  let df_results := rows.map (evalRow chem)
  let df_pass := df_results.filter isPass
  let df_fail := df_results.filter fun r => !(isPass r)
  rankStep df_pass ++ df_fail.map fun r => ⟨r, none⟩

/-- Errors of the pipeline front door. -/
inductive PipelineError where
  | SchemaError
deriving DecidableEq, Repr

/-- A raw input table: its header and the record projection of its rows. -/
structure RawTable where
  columns : List String
  rows : List InputRow
deriving Repr

/-- The guarded pipeline, `src/app.py` lines 105-170: the schema check on
the exact column names runs before any per-row processing. -/
def runPipeline (chem : ChemOracle) (t : RawTable) :
    Except PipelineError (List RankedRow) :=
  if "SMILES" ∉ t.columns ∨ "Docking_Score" ∉ t.columns then
    Except.error PipelineError.SchemaError
  else
    Except.ok (analyze chem t.rows)

/-- Substring test on character lists (left-anchored match). -/
def startsWith : List Char → List Char → Bool
  | [], _ => true
  | _ :: _, [] => false
  | p :: ps, a :: l => p == a && startsWith ps l

/-- Substring test, modelling `Series.str.contains(pat)` for a pattern
without regex metacharacters. -/
def containsSub (pat : List Char) : List Char → Bool
  | [] => startsWith pat []
  | a :: l => startsWith pat (a :: l) || containsSub pat l

/-- Whether a status label textually contains the word `Fail`. -/
def containsFail (s : String) : Bool := containsSub "Fail".data s.data

/-- `pass_count`, `src/app.py` line 212. -/
def pass_count (df : List RankedRow) : ℕ :=
  (df.filter fun r => r.Status == "Pass").length

/-- `fail_count`, `src/app.py` line 213: rows whose status contains
the word `Fail`. -/
def fail_count (df : List RankedRow) : ℕ :=
  (df.filter fun r => containsFail r.Status).length

/-- The column header of the exported CSV: the result-dict keys in
insertion order plus the `Final_Rank` column (`src/app.py` lines 147-157,
168-169, 221). -/
def csv_columns : List String :=
  ["SMILES", "Docking_Score", "Status", "MW", "LogP", "HDonors",
   "HAcceptors", "Violations", "ADMET_Predict", "Final_Rank"]

/-- The exported CSV table, modelling `df_final.to_csv` (line 221). -/
structure ExportTable where
  columns : List String
  rows : List RankedRow
deriving Repr

/-- Serialisation of the final table for the download button. -/
def exportCSV (df_final : List RankedRow) : ExportTable :=
  ⟨csv_columns, df_final⟩

/-- Caption data shown under a gallery image: the structure id and score
of a row of the final table (`src/app.py` line 187). -/
def caption (r : RankedRow) : String × ℚ := (r.SMILES, r.Docking_Score)

/-- Record projection displayed for an evaluated row. -/
def rowKey (r : ResultRow) : String × ℚ := (r.SMILES, r.Docking_Score)

/-- The structure gallery, `src/app.py` lines 185-187: the i-th image is
paired with the caption drawn from the i-th row of the final table. -/
def gallery (chem : ChemOracle) (rows : List InputRow) :
    List (Option Mol × RankedRow) :=
  (images chem rows).zip (analyze chem rows)

/-- A small concrete oracle used to instantiate the theorems: one benign
molecule, one rule-breaking molecule, everything else unparseable. -/
def demoChem : ChemOracle := fun s =>
  if s = "O" then some ⟨18, -1, 1, 1⟩
  else if s = "BIG" then some ⟨600, 6, 7, 12⟩
  else none

/-! ### Helper lemmas -/

theorem attachRanks_map_toResultRow :
    ∀ (s : List ResultRow) (k : ℕ),
      (attachRanks s k).map (fun r => r.toResultRow) = s
  | [], _ => rfl
  | r :: rs, k => by
      simp [attachRanks, attachRanks_map_toResultRow rs (k + 1)]

theorem attachRanks_map_rank :
    ∀ (s : List ResultRow) (k : ℕ),
      (attachRanks s k).map (fun r => r.Final_Rank)
        = (List.range' k s.length).map some
  | [], _ => rfl
  | r :: rs, k => by
      simp [attachRanks, List.range'_succ, attachRanks_map_rank rs (k + 1)]

theorem length_attachRanks (s : List ResultRow) (k : ℕ) :
    (attachRanks s k).length = s.length := by
  have := congrArg List.length (attachRanks_map_toResultRow s k)
  simpa using this

theorem mem_attachRanks {s : List ResultRow} {k : ℕ} {r : RankedRow}
    (h : r ∈ attachRanks s k) : r.toResultRow ∈ s := by
  rw [← attachRanks_map_toResultRow s k]
  exact List.mem_map_of_mem _ h

theorem scoreLE_trans (a b c : ResultRow)
    (hab : scoreLE a b) (hbc : scoreLE b c) : scoreLE a c := by
  simp only [scoreLE, decide_eq_true_eq] at *
  exact le_trans hab hbc

theorem scoreLE_total (a b : ResultRow) : scoreLE a b || scoreLE b a := by
  simp only [scoreLE]
  rcases le_total a.Docking_Score b.Docking_Score with h | h <;> simp [h]

theorem evalRow_SMILES (chem : ChemOracle) (r : InputRow) :
    (evalRow chem r).SMILES = r.SMILES := by
  unfold evalRow
  cases chem r.SMILES <;> rfl

theorem evalRow_Docking_Score (chem : ChemOracle) (r : InputRow) :
    (evalRow chem r).Docking_Score = r.Docking_Score := by
  unfold evalRow
  cases chem r.SMILES <;> rfl

theorem evalRow_status_cases (chem : ChemOracle) (r : InputRow) :
    (evalRow chem r).Status = "Invalid SMILES"
    ∨ (evalRow chem r).Status = "Pass"
    ∨ (evalRow chem r).Status = "Fail (Lipinski Violation)" := by
  unfold evalRow
  cases chem r.SMILES with
  | none => left; rfl
  | some m =>
      right
      by_cases h : countViolations m ≤ 1
      · left; simp [h]
      · right; simp [h]

theorem isPass_evalRow_isSome {chem : ChemOracle} {r : InputRow}
    (h : isPass (evalRow chem r) = true) : (chem r.SMILES).isSome := by
  unfold isPass evalRow at h
  cases hp : chem r.SMILES with
  | none => rw [hp] at h; simp at h
  | some m => rfl

theorem analyze_eq (chem : ChemOracle) (rows : List InputRow) :
    analyze chem rows =
      attachRanks (((rows.map (evalRow chem)).filter isPass).mergeSort scoreLE) 1
        ++ ((rows.map (evalRow chem)).filter fun r => !(isPass r)).map
             (fun r => (⟨r, none⟩ : RankedRow)) := rfl

theorem map_mk_toResultRow (l : List ResultRow) :
    (l.map fun r => (⟨r, none⟩ : RankedRow)).map (fun r => r.toResultRow) = l := by
  induction l with
  | nil => rfl
  | cons r l ih => simp [ih]

theorem map_toResultRow_filter (q : ResultRow → Bool) :
    ∀ l : List RankedRow,
      (l.filter fun r => q r.toResultRow).map (fun r => r.toResultRow)
        = (l.map fun r => r.toResultRow).filter q
  | [] => rfl
  | r :: l => by
      by_cases h : q r.toResultRow <;>
        simp [h, map_toResultRow_filter q l]

theorem filter_pass_analyze (chem : ChemOracle) (rows : List InputRow) :
    (analyze chem rows).filter (fun r => r.Status == "Pass")
      = rankStep ((rows.map (evalRow chem)).filter isPass) := by
  rw [analyze_eq, List.filter_append]
  have h1 : ∀ r ∈ attachRanks
      (((rows.map (evalRow chem)).filter isPass).mergeSort scoreLE) 1,
      (r.toResultRow.Status == "Pass") = true := by
    intro r hr
    have hm := mem_attachRanks hr
    rw [List.mem_mergeSort] at hm
    exact (List.mem_filter.mp hm).2
  have h2 : ∀ r ∈ ((rows.map (evalRow chem)).filter
      fun r => !(isPass r)).map (fun r => (⟨r, none⟩ : RankedRow)),
      ¬((r.toResultRow.Status == "Pass") = true) := by
    intro r hr
    obtain ⟨s, hs, rfl⟩ := List.mem_map.mp hr
    have hns := (List.mem_filter.mp hs).2
    simp only [Bool.not_eq_true', isPass] at hns
    simp [hns]
  rw [List.filter_eq_self.mpr h1, List.filter_eq_nil_iff.mpr h2,
    List.append_nil]
  rfl

theorem filter_fail_analyze (chem : ChemOracle) (rows : List InputRow) :
    (analyze chem rows).filter (fun r => !(r.Status == "Pass"))
      = ((rows.map (evalRow chem)).filter fun r => !(isPass r)).map
          (fun r => (⟨r, none⟩ : RankedRow)) := by
  rw [analyze_eq, List.filter_append]
  have h1 : ∀ r ∈ attachRanks
      (((rows.map (evalRow chem)).filter isPass).mergeSort scoreLE) 1,
      ¬((!(r.toResultRow.Status == "Pass")) = true) := by
    intro r hr
    have hm := mem_attachRanks hr
    rw [List.mem_mergeSort] at hm
    have hp := (List.mem_filter.mp hm).2
    simp only [isPass] at hp
    simp [hp]
  have h2 : ∀ r ∈ ((rows.map (evalRow chem)).filter
      fun r => !(isPass r)).map (fun r => (⟨r, none⟩ : RankedRow)),
      ((!(r.toResultRow.Status == "Pass")) = true) := by
    intro r hr
    obtain ⟨s, hs, rfl⟩ := List.mem_map.mp hr
    have hns := (List.mem_filter.mp hs).2
    simpa [isPass] using hns
  rw [List.filter_eq_nil_iff.mpr h1, List.filter_eq_self.mpr h2,
    List.nil_append]

theorem analyze_map_toResultRow_perm (chem : ChemOracle)
    (rows : List InputRow) :
    ((analyze chem rows).map fun r => r.toResultRow).Perm
      (rows.map (evalRow chem)) := by
  rw [analyze_eq, List.map_append, attachRanks_map_toResultRow,
    map_mk_toResultRow]
  exact (List.Perm.append
    (List.mergeSort_perm ((rows.map (evalRow chem)).filter isPass) scoreLE)
    (List.Perm.refl _)).trans (List.filter_append_perm isPass _)

theorem length_analyze (chem : ChemOracle) (rows : List InputRow) :
    (analyze chem rows).length = rows.length := by
  have h := (analyze_map_toResultRow_perm chem rows).length_eq
  simpa using h

theorem analyze_status_cases {chem : ChemOracle} {rows : List InputRow}
    {r : RankedRow} (h : r ∈ analyze chem rows) :
    r.Status = "Invalid SMILES" ∨ r.Status = "Pass"
      ∨ r.Status = "Fail (Lipinski Violation)" := by
  have hm : r.toResultRow ∈ rows.map (evalRow chem) :=
    (analyze_map_toResultRow_perm chem rows).mem_iff.mp
      (List.mem_map_of_mem _ h)
  obtain ⟨row, _, heq⟩ := List.mem_map.mp hm
  rw [← heq]
  exact evalRow_status_cases chem row

/-! ### Claim C2: violation counting and Pass/Fail classification -/

/-- C2: for every record whose structure parses, `Violations` equals the
exact count (between 0 and 4) of the four independent threshold breaches
(mw > 500, logP > 5, donors > 5, acceptors > 10), and the status is
`Pass` iff at most one rule is breached, else the Fail label. -/
theorem violations_and_classification (chem : ChemOracle) (r : InputRow)
    (m : Mol) (h : chem r.SMILES = some m) :
    (evalRow chem r).Violations = some (countViolations m)
    ∧ countViolations m =
        [decide (m.mw > 500), decide (m.logp > 5), decide (m.h_donors > 5),
         decide (m.h_acceptors > 10)].count true
    ∧ countViolations m ≤ 4
    ∧ ((evalRow chem r).Status = "Pass" ↔ countViolations m ≤ 1)
    ∧ ((evalRow chem r).Status = "Fail (Lipinski Violation)"
        ↔ ¬ countViolations m ≤ 1) := by
  have hcount : countViolations m =
      [decide (m.mw > 500), decide (m.logp > 5), decide (m.h_donors > 5),
       decide (m.h_acceptors > 10)].count true := by
    by_cases h1 : m.mw > 500 <;> by_cases h2 : m.logp > 5 <;>
      by_cases h3 : m.h_donors > 5 <;> by_cases h4 : m.h_acceptors > 10 <;>
      simp [countViolations, h1, h2, h3, h4]
  have hle : countViolations m ≤ 4 := by
    unfold countViolations
    split_ifs <;> omega
  refine ⟨by simp [evalRow, h], hcount, hle, ?_, ?_⟩ <;>
    by_cases hc : countViolations m ≤ 1 <;> simp [evalRow, h, hc]

/-- Witness for C2 at a concrete parsed molecule. -/
theorem violations_and_classification_witness :
    demoChem "O" = some ⟨18, -1, 1, 1⟩
    ∧ (evalRow demoChem ⟨"O", -5⟩).Violations
        = some (countViolations ⟨18, -1, 1, 1⟩) :=
  ⟨by decide,
   (violations_and_classification demoChem ⟨"O", -5⟩ ⟨18, -1, 1, 1⟩
      (by decide)).1⟩

/-! ### Claim C3: uninterpretable structures are retained, not fatal -/

/-- C3: for every record whose structure fails to parse, the evaluated row
carries the `Invalid SMILES` classification with every descriptor field,
the violation count and the ADMET label unset, the depiction slot is
explicitly `none`, and evaluation of the remaining records proceeds. -/
theorem invalid_input_branch (chem : ChemOracle) (r : InputRow)
    (rest : List InputRow) (h : chem r.SMILES = none) :
    (evalRow chem r).Status = "Invalid SMILES"
    ∧ (evalRow chem r).MW = none ∧ (evalRow chem r).LogP = none
    ∧ (evalRow chem r).HDonors = none ∧ (evalRow chem r).HAcceptors = none
    ∧ (evalRow chem r).Violations = none
    ∧ (evalRow chem r).ADMET_Predict = none
    ∧ images chem (r :: rest) = none :: images chem rest
    ∧ (r :: rest).map (evalRow chem)
        = evalRow chem r :: rest.map (evalRow chem) := by
  refine ⟨?_, ?_, ?_, ?_, ?_, ?_, ?_, ?_, ?_⟩ <;> simp [evalRow, images, h]

/-- Witness for C3 at a concrete unparseable record. -/
theorem invalid_input_branch_witness :
    demoChem "XX" = none
    ∧ (evalRow demoChem ⟨"XX", -8⟩).Status = "Invalid SMILES" :=
  ⟨by decide,
   (invalid_input_branch demoChem ⟨"XX", -8⟩ [] (by decide)).1⟩

/-! ### Claim C5: schema check precedes all per-row processing -/

/-- C5: whenever the input table lacks the `SMILES` column or the
`Docking_Score` column by exact name, the pipeline reports the schema
error and produces no evaluated records, whatever the rows contain. -/
theorem schema_error_guard (chem : ChemOracle) (t : RawTable)
    (h : "SMILES" ∉ t.columns ∨ "Docking_Score" ∉ t.columns) :
    runPipeline chem t = Except.error PipelineError.SchemaError
    ∧ ∀ out : List RankedRow, runPipeline chem t ≠ Except.ok out := by
  have hrun : runPipeline chem t = Except.error PipelineError.SchemaError := by
    unfold runPipeline
    exact if_pos h
  exact ⟨hrun, fun out hok => by rw [hrun] at hok; exact Except.noConfusion hok⟩

/-- Witness for C5 on a table that misses the score column. -/
theorem schema_error_guard_witness :
    runPipeline demoChem ⟨["SMILES"], [⟨"O", -5⟩]⟩
      = Except.error PipelineError.SchemaError :=
  (schema_error_guard demoChem ⟨["SMILES"], [⟨"O", -5⟩]⟩
    (Or.inr (by decide))).1

/-! ### Claim C6: the ADMET label rule and its independence -/

/-- C6: for every record whose structure parses, the ADMET label is `Good`
exactly when logP < 5 and the donor count is at most 5, and `Moderate`
otherwise; the label is a function of those two descriptors alone, hence
independent of the Pass/Fail classification. -/
theorem admet_label_rule (chem : ChemOracle) (r : InputRow) (m : Mol)
    (h : chem r.SMILES = some m) :
    ((evalRow chem r).ADMET_Predict = some "Good"
        ↔ (m.logp < 5 ∧ m.h_donors ≤ 5))
    ∧ ((evalRow chem r).ADMET_Predict = some "Moderate"
        ↔ ¬(m.logp < 5 ∧ m.h_donors ≤ 5))
    ∧ ∀ (chem2 : ChemOracle) (r2 : InputRow) (m2 : Mol),
        chem2 r2.SMILES = some m2 → m2.logp = m.logp →
        m2.h_donors = m.h_donors →
        (evalRow chem2 r2).ADMET_Predict = (evalRow chem r).ADMET_Predict := by
  refine ⟨?_, ?_, ?_⟩
  · by_cases hc : m.logp < 5 ∧ m.h_donors ≤ 5 <;> simp [evalRow, h, hc]
  · by_cases hc : m.logp < 5 ∧ m.h_donors ≤ 5 <;> simp [evalRow, h, hc]
  · intro chem2 r2 m2 h2 hl hd
    by_cases hc : m.logp < 5 ∧ m.h_donors ≤ 5 <;>
      simp [evalRow, h, h2, hl, hd, hc]

/-- Witness for C6 at a concrete parsed molecule. -/
theorem admet_label_rule_witness :
    demoChem "BIG" = some ⟨600, 6, 7, 12⟩
    ∧ ((evalRow demoChem ⟨"BIG", -3⟩).ADMET_Predict = some "Moderate"
        ↔ ¬((6 : ℚ) < 5 ∧ (7 : ℕ) ≤ 5)) := by
  refine ⟨by decide, ?_⟩
  have h := (admet_label_rule demoChem ⟨"BIG", -3⟩ ⟨600, 6, 7, 12⟩
    (by decide)).2.1
  simpa using h

/-! ### Claim C4: 1:1 correspondence and partition order -/

/-- C4: the final table is a permutation of the evaluated input records
(nothing dropped or merged, same length as the input), consists of the
Pass block followed by the non-Pass block, the non-Pass records keep
their original input order, and every non-Pass record has no rank. -/
theorem output_partition_invariants (chem : ChemOracle)
    (rows : List InputRow) :
    (analyze chem rows).length = rows.length
    ∧ ((analyze chem rows).map fun r => r.toResultRow).Perm
        (rows.map (evalRow chem))
    ∧ analyze chem rows
        = (analyze chem rows).filter (fun r => r.Status == "Pass")
          ++ (analyze chem rows).filter (fun r => !(r.Status == "Pass"))
    ∧ ((analyze chem rows).filter (fun r => !(r.Status == "Pass"))).map
        (fun r => r.toResultRow)
      = (rows.map (evalRow chem)).filter (fun r => !(isPass r))
    ∧ ∀ r ∈ analyze chem rows, r.Status ≠ "Pass" → r.Final_Rank = none := by
  refine ⟨length_analyze chem rows, analyze_map_toResultRow_perm chem rows,
    ?_, ?_, ?_⟩
  · rw [filter_pass_analyze, filter_fail_analyze]
    exact analyze_eq chem rows
  · rw [filter_fail_analyze, map_mk_toResultRow]
  · intro r hr hstatus
    rw [analyze_eq] at hr
    rcases List.mem_append.mp hr with hA | hB
    · exfalso
      have hm := mem_attachRanks hA
      rw [List.mem_mergeSort] at hm
      have hp := (List.mem_filter.mp hm).2
      simp only [isPass, beq_iff_eq] at hp
      exact hstatus hp
    · obtain ⟨s, _, rfl⟩ := List.mem_map.mp hB
      rfl

/-- Witness for C4 at a concrete input. -/
theorem output_partition_invariants_witness :
    (analyze demoChem [⟨"XX", -8⟩, ⟨"O", -5⟩]).length = 2 :=
  (output_partition_invariants demoChem [⟨"XX", -8⟩, ⟨"O", -5⟩]).1

/-! ### Claim C7: summary counts -/

/-- C7: the Pass summary count is the number of records classified Pass,
and the Fail summary count — defined textually as containing the word
`Fail` — counts exactly the records carrying the Fail label, since the
`Invalid SMILES` and `Pass` labels do not contain that word. -/
theorem summary_counts (chem : ChemOracle) (rows : List InputRow) :
    pass_count (analyze chem rows)
      = ((rows.map (evalRow chem)).filter isPass).length
    ∧ fail_count (analyze chem rows)
      = ((analyze chem rows).filter
          (fun r => r.Status == "Fail (Lipinski Violation)")).length
    ∧ containsFail "Fail (Lipinski Violation)" = true
    ∧ containsFail "Invalid SMILES" = false
    ∧ containsFail "Pass" = false := by
  refine ⟨?_, ?_, by decide, by decide, by decide⟩
  · unfold pass_count
    rw [filter_pass_analyze]
    unfold rankStep
    rw [length_attachRanks, List.length_mergeSort]
  · unfold fail_count
    congr 1
    apply List.filter_congr
    intro r hr
    rcases analyze_status_cases hr with h | h | h <;> rw [h] <;> decide

/-- Witness for C7 at a concrete input. -/
theorem summary_counts_witness :
    pass_count (analyze demoChem [⟨"XX", -8⟩, ⟨"O", -5⟩])
      = (([⟨"XX", -8⟩, ⟨"O", -5⟩].map
          (evalRow demoChem)).filter isPass).length :=
  (summary_counts demoChem [⟨"XX", -8⟩, ⟨"O", -5⟩]).1

/-! ### Claim C8: export shape -/

/-- C8: whenever the pipeline passes the schema check and completes, the
exported table has exactly as many rows as the input and its column list
is exactly the EvaluatedCandidate field set (structure id, score,
classification, four descriptors, violation count, ADMET label, rank). -/
theorem export_shape (chem : ChemOracle) (t : RawTable)
    (out : List RankedRow) (h : runPipeline chem t = Except.ok out) :
    (exportCSV out).columns = csv_columns
    ∧ (exportCSV out).rows.length = t.rows.length := by
  refine ⟨rfl, ?_⟩
  unfold runPipeline at h
  by_cases hc : "SMILES" ∉ t.columns ∨ "Docking_Score" ∉ t.columns
  · rw [if_pos hc] at h
    exact absurd h (by simp)
  · rw [if_neg hc] at h
    have hout : out = analyze chem t.rows := (Except.ok.injEq _ _).mp h.symm
    rw [hout]
    exact length_analyze chem t.rows

/-- Witness for C8 on a well-formed concrete table. -/
theorem export_shape_witness :
    (exportCSV (analyze demoChem [⟨"O", -5⟩])).rows.length = 1 :=
  (export_shape demoChem ⟨["SMILES", "Docking_Score"], [⟨"O", -5⟩]⟩
    (analyze demoChem [⟨"O", -5⟩])
    (by unfold runPipeline; rw [if_neg (by decide)])).2

/-! ### Claim C10: gallery captions come from the reordered table -/

/-- Placeholder row used only as a `getD` default. -/
def dRow : ResultRow := ⟨"", 0, "", none, none, none, none, none, none⟩

theorem rowKey_eq_on_results {chem : ChemOracle} {rows : List InputRow}
    {x y : ResultRow} (hx : x ∈ rows.map (evalRow chem))
    (hy : y ∈ rows.map (evalRow chem)) (hk : rowKey x = rowKey y) : x = y := by
  obtain ⟨rx, _, rfl⟩ := List.mem_map.mp hx
  obtain ⟨ry, _, rfl⟩ := List.mem_map.mp hy
  have hs : rx.SMILES = ry.SMILES := by
    have h1 := congrArg Prod.fst hk
    simpa [rowKey, evalRow_SMILES] using h1
  have hd : rx.Docking_Score = ry.Docking_Score := by
    have h2 := congrArg Prod.snd hk
    simpa [rowKey, evalRow_Docking_Score] using h2
  have hxy : rx = ry := by
    cases rx
    cases ry
    simp_all
  rw [hxy]

theorem caption_agreement_forces_same_order (chem : ChemOracle)
    (rows : List InputRow)
    (hagree : ∀ i, i < rows.length →
      (chem ((rows.getD i ⟨"", 0⟩).SMILES)).isSome →
      rowKey (((((rows.map (evalRow chem)).filter isPass).mergeSort scoreLE)
          ++ ((rows.map (evalRow chem)).filter
                fun r => !(isPass r))).getD i dRow)
        = rowKey ((rows.map (evalRow chem)).getD i dRow)) :
    (((rows.map (evalRow chem)).filter isPass).mergeSort scoreLE)
        ++ ((rows.map (evalRow chem)).filter fun r => !(isPass r))
      = rows.map (evalRow chem) := by
  have hlenR : (rows.map (evalRow chem)).length = rows.length := by simp
  have hSlen : (((rows.map (evalRow chem)).filter isPass).mergeSort
      scoreLE).length = ((rows.map (evalRow chem)).filter isPass).length :=
    List.length_mergeSort _
  have htot : ((rows.map (evalRow chem)).filter isPass).length
      + ((rows.map (evalRow chem)).filter fun r => !(isPass r)).length
      = rows.length := by
    have hp := (List.filter_append_perm isPass
      (rows.map (evalRow chem))).length_eq
    simpa using hp
  have hSF : ((((rows.map (evalRow chem)).filter isPass).mergeSort scoreLE)
      ++ ((rows.map (evalRow chem)).filter
            fun r => !(isPass r))).length = rows.length := by
    rw [List.length_append, hSlen]
    exact htot
  have hdroplen : ((rows.map (evalRow chem)).drop
      ((rows.map (evalRow chem)).filter isPass).length).length
      = rows.length - ((rows.map (evalRow chem)).filter isPass).length := by
    rw [List.length_drop, hlenR]
  have hRget : ∀ i, ∀ hi : i < rows.length,
      (rows.map (evalRow chem))[i] = evalRow chem rows[i] := by
    intro i hi
    exact List.getElem_map _
  have hvalid : ∀ i, ∀ hi : i < rows.length,
      isPass ((rows.map (evalRow chem))[i]) = true →
      (chem ((rows.getD i ⟨"", 0⟩).SMILES)).isSome := by
    intro i hi hp
    rw [hRget i hi] at hp
    rw [List.getD_eq_getElem rows _ hi]
    exact isPass_evalRow_isSome hp
  have hag : ∀ i, ∀ hi : i < rows.length,
      isPass ((rows.map (evalRow chem))[i]) = true →
      rowKey (((((rows.map (evalRow chem)).filter isPass).mergeSort scoreLE)
          ++ ((rows.map (evalRow chem)).filter fun r => !(isPass r)))[i])
        = rowKey ((rows.map (evalRow chem))[i]) := by
    intro i hi hp
    have h1 := hagree i hi (hvalid i hi hp)
    rw [List.getD_eq_getElem _ dRow (by omega),
      List.getD_eq_getElem _ dRow (by omega)] at h1
    exact h1
  have hdropfail : ∀ i, ((rows.map (evalRow chem)).filter isPass).length ≤ i →
      ∀ hi : i < rows.length,
      ¬ (isPass ((rows.map (evalRow chem))[i]) = true) := by
    intro i hKi hi hp
    have hkey := hag i hi hp
    have hSFi : (((((rows.map (evalRow chem)).filter isPass).mergeSort
        scoreLE)) ++ ((rows.map (evalRow chem)).filter
          fun r => !(isPass r)))[i]
        = ((rows.map (evalRow chem)).filter fun r => !(isPass r))[i -
            (((rows.map (evalRow chem)).filter isPass).mergeSort
              scoreLE).length] :=
      List.getElem_append_right (by omega)
    rw [hSFi] at hkey
    have hmemFl : ((rows.map (evalRow chem)).filter
        fun r => !(isPass r))[i - (((rows.map (evalRow chem)).filter
          isPass).mergeSort scoreLE).length]
        ∈ (rows.map (evalRow chem)).filter fun r => !(isPass r) :=
      List.getElem_mem _
    have hnp : isPass (((rows.map (evalRow chem)).filter
        fun r => !(isPass r))[i - (((rows.map (evalRow chem)).filter
          isPass).mergeSort scoreLE).length]) = false := by
      have h2 := (List.mem_filter.mp hmemFl).2
      simpa using h2
    have hmemR1 := List.mem_of_mem_filter hmemFl
    have hmemR2 : (rows.map (evalRow chem))[i] ∈ rows.map (evalRow chem) :=
      List.getElem_mem _
    have heq := rowKey_eq_on_results hmemR1 hmemR2 hkey
    rw [heq, hp] at hnp
    exact Bool.noConfusion hnp
  have hdropzero : List.countP isPass ((rows.map (evalRow chem)).drop
      ((rows.map (evalRow chem)).filter isPass).length) = 0 := by
    apply List.countP_eq_zero.mpr
    intro x hx
    obtain ⟨j, hj, hxj⟩ := List.mem_iff_getElem.mp hx
    subst hxj
    rw [List.getElem_drop]
    exact hdropfail (((rows.map (evalRow chem)).filter isPass).length + j)
      (by omega) (by omega)
  have hc1 : List.countP isPass (rows.map (evalRow chem))
      = ((rows.map (evalRow chem)).filter isPass).length :=
    List.countP_eq_length_filter _ _
  have htkd := List.take_append_drop
    ((rows.map (evalRow chem)).filter isPass).length (rows.map (evalRow chem))
  have hc3 : List.countP isPass ((rows.map (evalRow chem)).take
      ((rows.map (evalRow chem)).filter isPass).length)
      = ((rows.map (evalRow chem)).filter isPass).length := by
    have happ := List.countP_append isPass
      ((rows.map (evalRow chem)).take
        ((rows.map (evalRow chem)).filter isPass).length)
      ((rows.map (evalRow chem)).drop
        ((rows.map (evalRow chem)).filter isPass).length)
    rw [htkd] at happ
    omega
  have hlentake : ((rows.map (evalRow chem)).take
      ((rows.map (evalRow chem)).filter isPass).length).length
      = ((rows.map (evalRow chem)).filter isPass).length := by
    rw [List.length_take]
    have hKle := List.length_filter_le isPass (rows.map (evalRow chem))
    omega
  have hallpass : ∀ x ∈ (rows.map (evalRow chem)).take
      ((rows.map (evalRow chem)).filter isPass).length, isPass x = true :=
    List.countP_eq_length.mp (hc3.trans hlentake.symm)
  have htakepass : ∀ i, i < ((rows.map (evalRow chem)).filter isPass).length →
      ∀ hi : i < rows.length,
      isPass ((rows.map (evalRow chem))[i]) = true := by
    intro i hiK hi
    have hgt : ((rows.map (evalRow chem)).take
        ((rows.map (evalRow chem)).filter isPass).length)[i]
        = (rows.map (evalRow chem))[i] :=
      List.getElem_take _
    rw [← hgt]
    exact hallpass _ (List.getElem_mem _)
  have hFl : (rows.map (evalRow chem)).filter (fun r => !(isPass r))
      = (rows.map (evalRow chem)).drop
          ((rows.map (evalRow chem)).filter isPass).length := by
    conv_lhs => rw [← htkd]
    rw [List.filter_append]
    have h1 : ((rows.map (evalRow chem)).take
        ((rows.map (evalRow chem)).filter isPass).length).filter
          (fun r => !(isPass r)) = [] := by
      apply List.filter_eq_nil_iff.mpr
      intro a ha
      have hpa := hallpass a ha
      simp [hpa]
    have h2 : ((rows.map (evalRow chem)).drop
        ((rows.map (evalRow chem)).filter isPass).length).filter
          (fun r => !(isPass r))
        = (rows.map (evalRow chem)).drop
            ((rows.map (evalRow chem)).filter isPass).length := by
      apply List.filter_eq_self.mpr
      intro a ha
      obtain ⟨j, hj, hxj⟩ := List.mem_iff_getElem.mp ha
      subst hxj
      rw [List.getElem_drop]
      have hnp := hdropfail
        (((rows.map (evalRow chem)).filter isPass).length + j)
        (by omega) (by omega)
      simpa using hnp
    rw [h1, h2, List.nil_append]
  have hStake : ((rows.map (evalRow chem)).filter isPass).mergeSort scoreLE
      = (rows.map (evalRow chem)).take
          ((rows.map (evalRow chem)).filter isPass).length := by
    apply List.ext_getElem (by rw [hSlen, hlentake])
    intro i h1 h2
    have hin : i < rows.length := by omega
    have hp := htakepass i (by omega) hin
    have hkey := hag i hin hp
    have hSFi : (((((rows.map (evalRow chem)).filter isPass).mergeSort
        scoreLE)) ++ ((rows.map (evalRow chem)).filter
          fun r => !(isPass r)))[i]
        = (((rows.map (evalRow chem)).filter isPass).mergeSort scoreLE)[i] :=
      List.getElem_append_left (by omega)
    rw [hSFi] at hkey
    have hmemS : (((rows.map (evalRow chem)).filter isPass).mergeSort
        scoreLE)[i] ∈ ((rows.map (evalRow chem)).filter isPass).mergeSort
          scoreLE :=
      List.getElem_mem _
    have hmemR1 : (((rows.map (evalRow chem)).filter isPass).mergeSort
        scoreLE)[i] ∈ rows.map (evalRow chem) := by
      rw [List.mem_mergeSort] at hmemS
      exact List.mem_of_mem_filter hmemS
    have hmemR2 : (rows.map (evalRow chem))[i] ∈ rows.map (evalRow chem) :=
      List.getElem_mem _
    have heq := rowKey_eq_on_results hmemR1 hmemR2 hkey
    rw [heq]
    exact (List.getElem_take _).symm
  rw [hStake, hFl]
  exact htkd

/-- C10: the gallery pairs the i-th image — the depiction of the i-th
input record, `none` when unparseable — with the caption taken from the
i-th row of the rank-reordered final table; consequently, whenever
ranking changes the displayed record order, some present image is
captioned with the structure id and score of a different record. -/
theorem gallery_caption_mismatch (chem : ChemOracle) (rows : List InputRow)
    (hne : (analyze chem rows).map caption
        ≠ (rows.map (evalRow chem)).map rowKey) :
    images chem rows = rows.map (fun r => chem r.SMILES)
    ∧ gallery chem rows = (images chem rows).zip (analyze chem rows)
    ∧ ∃ i, i < rows.length
        ∧ ((images chem rows).getD i none).isSome
        ∧ ((analyze chem rows).map caption).getD i ("", 0)
            ≠ ((rows.map (evalRow chem)).map rowKey).getD i ("", 0) := by
  refine ⟨rfl, rfl, ?_⟩
  by_contra hcon
  push_neg at hcon
  apply hne
  have hlenA : (analyze chem rows).length = rows.length :=
    length_analyze chem rows
  have hlenR : (rows.map (evalRow chem)).length = rows.length := by simp
  have himlen : (images chem rows).length = rows.length := by simp [images]
  have hlenc : ((analyze chem rows).map caption).length = rows.length := by
    simp [hlenA]
  have hlenk : ((rows.map (evalRow chem)).map rowKey).length = rows.length :=
    by simp
  have hmapsplit : (analyze chem rows).map (fun r => r.toResultRow)
      = (((rows.map (evalRow chem)).filter isPass).mergeSort scoreLE)
        ++ ((rows.map (evalRow chem)).filter fun r => !(isPass r)) := by
    rw [analyze_eq, List.map_append, attachRanks_map_toResultRow,
      map_mk_toResultRow]
  have hlenm : ((analyze chem rows).map (fun r => r.toResultRow)).length
      = rows.length := by simp [hlenA]
  have hSF : ((((rows.map (evalRow chem)).filter isPass).mergeSort scoreLE)
      ++ ((rows.map (evalRow chem)).filter fun r => !(isPass r))).length
      = rows.length := by
    rw [← hmapsplit]
    simp [hlenA]
  have hagree : ∀ i, i < rows.length →
      (chem ((rows.getD i ⟨"", 0⟩).SMILES)).isSome →
      rowKey (((((rows.map (evalRow chem)).filter isPass).mergeSort scoreLE)
          ++ ((rows.map (evalRow chem)).filter
                fun r => !(isPass r))).getD i dRow)
        = rowKey ((rows.map (evalRow chem)).getD i dRow) := by
    intro i hi hsome
    have him : ((images chem rows).getD i none).isSome := by
      rw [List.getD_eq_getElem _ none (by omega)]
      have hig : (images chem rows)[i] = chem (rows[i]).SMILES :=
        List.getElem_map _
      rw [hig]
      rw [List.getD_eq_getElem rows _ hi] at hsome
      exact hsome
    have h1 := hcon i hi him
    rw [List.getD_eq_getElem _ _ (by omega),
      List.getD_eq_getElem _ _ (by omega)] at h1
    simp only [List.getElem_map] at h1
    rw [List.getD_eq_getElem _ dRow (by omega),
      List.getD_eq_getElem _ dRow (by omega)]
    have h2 : (((((rows.map (evalRow chem)).filter isPass).mergeSort scoreLE)
        ++ ((rows.map (evalRow chem)).filter fun r => !(isPass r))))[i]
        = ((analyze chem rows).map (fun r => r.toResultRow))[i] :=
      List.getElem_of_eq hmapsplit.symm (by omega)
    rw [h2]
    simp only [List.getElem_map]
    exact h1
  have hmain := caption_agreement_forces_same_order chem rows hagree
  calc (analyze chem rows).map caption
      = ((analyze chem rows).map (fun r => r.toResultRow)).map rowKey := by
        rw [List.map_map]
        exact rfl
    _ = (rows.map (evalRow chem)).map rowKey := by rw [hmapsplit, hmain]

/-- Witness for C10 on an input whose ranking swaps the two records. -/
theorem gallery_caption_mismatch_witness :
    ∃ i, i < ([⟨"XX", -8⟩, ⟨"O", -5⟩] : List InputRow).length
      ∧ ((images demoChem [⟨"XX", -8⟩, ⟨"O", -5⟩]).getD i none).isSome
      ∧ ((analyze demoChem [⟨"XX", -8⟩, ⟨"O", -5⟩]).map caption).getD
            i ("", 0)
          ≠ (([⟨"XX", -8⟩, ⟨"O", -5⟩].map (evalRow demoChem)).map
              rowKey).getD i ("", 0) :=
  (gallery_caption_mismatch demoChem [⟨"XX", -8⟩, ⟨"O", -5⟩]
    (by
      have hcx : demoChem "XX" = none := by
        unfold demoChem
        rw [if_neg (by decide), if_neg (by decide)]
      have hco : demoChem "O" = some ⟨18, -1, 1, 1⟩ := by
        unfold demoChem
        rw [if_pos rfl]
      have hXX : evalRow demoChem ⟨"XX", -8⟩
          = ⟨"XX", -8, "Invalid SMILES", none, none, none, none, none,
             none⟩ := by
        unfold evalRow
        rw [hcx]
      have hO : evalRow demoChem ⟨"O", -5⟩
          = ⟨"O", -5, "Pass", some (round2 18), some (round2 (-1)), some 1,
             some 1, some 0, some "Good"⟩ := by
        unfold evalRow
        rw [hco]
        norm_num [countViolations]
      have han : analyze demoChem [⟨"XX", -8⟩, ⟨"O", -5⟩]
          = [⟨⟨"O", -5, "Pass", some (round2 18), some (round2 (-1)),
                some 1, some 1, some 0, some "Good"⟩, some 1⟩,
             ⟨⟨"XX", -8, "Invalid SMILES", none, none, none, none, none,
                none⟩, none⟩] := by
        rw [analyze_eq, List.map_cons, List.map_cons, List.map_nil, hXX, hO]
        simp [isPass, rankStep, attachRanks]
      rw [han]
      simp [caption, rowKey, hXX, hO])).2.2

end Admet
